import Mathlib

/-!
Shallow embedding of `src/cron_parse.py` (pycron-cli): cron expression
parser, schedule model and formatter. Python strings are modelled as
`List Char`; Python exceptions as an explicit error type (`PyErr`)
distinguishing `CronParseError` from `ValueError` (the error `int()`
raises on non-numeric text).
-/

/-- Python ASCII whitespace as used by `str.split()` / `str.strip()`. -/
def pyIsSpace (c : Char) : Bool :=
  c == ' ' || c == '\t' || c == '\n' || c == '\r' || c == '\x0b' || c == '\x0c'

/-- `str.strip()` on a character list: drop whitespace at both ends. -/
def pyStrip (s : List Char) : List Char :=
  ((s.dropWhile pyIsSpace).reverse.dropWhile pyIsSpace).reverse

/-- Split at every character satisfying `p`, keeping empty pieces
(the behaviour of Python `str.split(sep)` for a one-character `sep`). -/
def splitWhen (p : Char → Bool) : List Char → List (List Char)
  | [] => [[]]
  | c :: cs =>
    if p c then [] :: splitWhen p cs
    else
      match splitWhen p cs with
      | [] => [[c]]
      | g :: gs => (c :: g) :: gs

/-- Python `str.split()` with no argument: split on whitespace runs,
dropping empty pieces. -/
def pySplitWS (s : List Char) : List (List Char) :=
  (splitWhen pyIsSpace s).filter (fun g => g ≠ [])

/-- Python `s.split(sep, 1)` for a one-character separator, as the pair
(before, after) of the first occurrence; `(s, [])` when absent (the
source only calls this after checking `sep in s`). -/
def pySplitFirst (sep : Char) : List Char → (List Char × List Char)
  | [] => ([], [])
  | c :: cs =>
    if c = sep then ([], cs)
    else
      let (a, b) := pySplitFirst sep cs
      (c :: a, b)

/-- Digit run of Python `int()`: decimal digits, single underscores
allowed between digits only. Accumulates the value. -/
def pyDigitsAux (acc : Nat) : List Char → Option Nat
  | [] => some acc
  | c :: cs =>
    if c.isDigit then pyDigitsAux (acc * 10 + (c.toNat - 48)) cs
    else if c = '_' then
      match cs with
      | [] => none
      | d :: cs' =>
        if d.isDigit then pyDigitsAux (acc * 10 + (d.toNat - 48)) cs'
        else none
    else none

/-- Python `int(s)` on a string: strip whitespace, optional sign, then a
nonempty digit run (first character after the sign must be a digit).
`none` models a raised `ValueError`. -/
def pyInt? (s : List Char) : Option Int :=
  match pyStrip s with
  | '+' :: rest =>
    match rest with
    | d :: _ => if d.isDigit then (pyDigitsAux 0 rest).map Int.ofNat else none
    | [] => none
  | '-' :: rest =>
    match rest with
    | d :: _ => if d.isDigit then (pyDigitsAux 0 rest).map (fun n => -(n : Int)) else none
    | [] => none
  | d :: rest =>
    if d.isDigit then (pyDigitsAux 0 (d :: rest)).map Int.ofNat else none
  | [] => none

/-- `pyRangeAux a step n` = the `n`-element list `[a, a+step, …]`
(structural, so concrete instances reduce in the kernel). -/
def pyRangeAux (a step : Int) : Nat → List Int
  | 0 => []
  | n + 1 => a :: pyRangeAux (a + step) step n

/-- Python `range(a, b, step)` for `step > 0` (and `[]` for other steps,
which the source never requests): `ceil((b-a)/step)` elements. -/
def pyRange (a b step : Int) : List Int :=
  if 0 < step then pyRangeAux a step ((b - a + step - 1) / step).toNat else []

/-- Python `sorted(set(values))` for integers: sort, then drop duplicates. -/
def sortedDedup (l : List Int) : List Int :=
  (List.insertionSort (· ≤ ·) l).dedup

/-- Python exceptions escaping the parser: the module's own
`CronParseError`, and the `ValueError` raised by `int()` on
non-numeric text. -/
inductive PyErr where
  | cron (msg : String)
  | value (msg : String)
deriving DecidableEq, Repr

/-- `int(s)` as an `Except` computation: `ValueError` when the text is
not an integer literal. -/
def pyIntE (s : List Char) : Except PyErr Int :=
  match pyInt? s with
  | some n => Except.ok n
  | none => Except.error (PyErr.value ("invalid literal for int() with base 10: " ++ String.mk s))

/-- `StartInterval` / `StartCalendarInterval` entry (dataclass
`CalendarEntry` in the source). `weekday = none` is Python `None`. -/
structure CalendarEntry where
  minute : Int
  hour : Int
  weekday : Option Int
deriving DecidableEq, Repr

/-- `ParsedCron = StartInterval | StartCalendarInterval`. -/
inductive ParsedCron where
  | StartInterval (seconds : Int)
  | StartCalendarInterval (entries : List CalendarEntry)
deriving DecidableEq, Repr

/-- The for-loop body of `_parse_field`'s comma branch: each part is
stripped, then treated as an `A-B` range or a single integer, with
bounds checks; values accumulate in order. -/
def parseListParts (min_val max_val : Int) : List (List Char) → List Int → Except PyErr (List Int)
  | [], acc => Except.ok acc
  | part :: rest, acc =>
    let part := pyStrip part
    if '-' ∈ part then
      let (s1, s2) := pySplitFirst '-' part
      match pyIntE s1 with
      | Except.error e => Except.error e
      | Except.ok start =>
        match pyIntE s2 with
        | Except.error e => Except.error e
        | Except.ok stop =>
          if start < min_val ∨ stop > max_val ∨ start > stop then
            Except.error (PyErr.cron ("Range out of bounds: " ++ String.mk part))
          else
            parseListParts min_val max_val rest (acc ++ pyRange start (stop + 1) 1)
    else
      match pyIntE part with
      | Except.error e => Except.error e
      | Except.ok val =>
        if val < min_val ∨ val > max_val then
          Except.error (PyErr.cron ("Value out of bounds: " ++ toString val))
        else
          parseListParts min_val max_val rest (acc ++ [val])

set_option linter.unusedVariables false in
/-- `_parse_field(field, min_val, max_val, field_name)` from the source:
parses one cron field into a list of integers, trying `*`, `*/N`,
`range/N`, comma lists, `A-B` ranges and single integers in that order
(`field_name` is unused in the source body as well). -/
def parseField (field : List Char) (min_val max_val : Int) (field_name : String) :
    Except PyErr (List Int) :=
  if field = ['*'] then
    Except.ok (pyRange min_val (max_val + 1) 1)
  else if ['*', '/'].isPrefixOf field then
    match pyIntE (field.drop 2) with
    | Except.error e => Except.error e
    | Except.ok step =>
      if step ≤ 0 then Except.error (PyErr.cron ("Step must be positive: " ++ String.mk field))
      else Except.ok (pyRange min_val (max_val + 1) step)
  else if '/' ∈ field then
    let (range_part, step_str) := pySplitFirst '/' field
    match pyIntE step_str with
    | Except.error e => Except.error e
    | Except.ok step =>
      if step ≤ 0 then Except.error (PyErr.cron ("Step must be positive: " ++ String.mk field))
      else if '-' ∉ range_part then
        Except.error (PyErr.cron ("Invalid step syntax: " ++ String.mk field))
      else
        let (s1, s2) := pySplitFirst '-' range_part
        match pyIntE s1 with
        | Except.error e => Except.error e
        | Except.ok start =>
          match pyIntE s2 with
          | Except.error e => Except.error e
          | Except.ok stop =>
            if start < min_val ∨ stop > max_val ∨ start > stop then
              Except.error (PyErr.cron ("Range out of bounds: " ++ String.mk field))
            else Except.ok (pyRange start (stop + 1) step)
  else if ',' ∈ field then
    match parseListParts min_val max_val (splitWhen (· == ',') field) [] with
    | Except.error e => Except.error e
    | Except.ok values => Except.ok (sortedDedup values)
  else if '-' ∈ field then
    let (s1, s2) := pySplitFirst '-' field
    match pyIntE s1 with
    | Except.error e => Except.error e
    | Except.ok start =>
      match pyIntE s2 with
      | Except.error e => Except.error e
      | Except.ok stop =>
        if start < min_val ∨ stop > max_val ∨ start > stop then
          Except.error (PyErr.cron ("Range out of bounds: " ++ String.mk field))
        else Except.ok (pyRange start (stop + 1) 1)
  else
    match pyIntE field with
    | Except.error e => Except.error e
    | Except.ok val =>
      if val < min_val ∨ val > max_val then
        Except.error (PyErr.cron ("Value out of bounds: " ++ toString val))
      else Except.ok [val]

/-- `parse_cron(expression)` from the source: split into 5 fields,
require `*` day-of-month and month, take the interval branch for
`*/N * * * *`, otherwise the calendar branch with a single literal
minute and the hour × weekday cross product. -/
def parse_cron (expression : List Char) : Except PyErr ParsedCron :=
  match pySplitWS expression with
  | [minute_f, hour_f, dom_f, mon_f, dow_f] =>
    if dom_f ≠ ['*'] then Except.error (PyErr.cron "Day of month must be '*'")
    else if mon_f ≠ ['*'] then Except.error (PyErr.cron "Month must be '*'")
    else if ['*', '/'].isPrefixOf minute_f ∧ hour_f = ['*'] ∧ dow_f = ['*'] then
      match pyIntE (minute_f.drop 2) with
      | Except.error e => Except.error e
      | Except.ok interval =>
        if interval ≤ 0 then Except.error (PyErr.cron "Interval must be positive")
        else Except.ok (ParsedCron.StartInterval (interval * 60))
    else if minute_f = ['*'] ∨ ',' ∈ minute_f ∨ '-' ∈ minute_f ∨ '/' ∈ minute_f then
      Except.error (PyErr.cron "Minute must be a single value (0-59) for calendar schedules")
    else
      match pyIntE minute_f with
      | Except.error e => Except.error e
      | Except.ok minute =>
        if minute < 0 ∨ minute > 59 then
          Except.error (PyErr.cron ("Minute must be 0-59, got " ++ toString minute))
        else
          match parseField hour_f 0 23 "hour" with
          | Except.error e => Except.error e
          | Except.ok hours =>
            match (if dow_f = ['*'] then Except.ok [(none : Option Int)]
                   else match parseField dow_f 0 6 "dow" with
                        | Except.error e => Except.error e
                        | Except.ok ws => Except.ok (ws.map some)) with
            | Except.error e => Except.error e
            | Except.ok weekdays =>
              Except.ok (ParsedCron.StartCalendarInterval
                (hours.flatMap (fun h => weekdays.map (fun w => ⟨minute, h, w⟩))))
  | parts => Except.error (PyErr.cron ("Expected 5 fields, got " ++ toString parts.length))

deriving instance DecidableEq for Except

/-- Python `f"{v:02d}"`: zero-pad the decimal rendering to width 2. -/
def py02d (v : Int) : String :=
  let s := toString v
  if s.length < 2 then "0" ++ s else s

/-- Python list indexing `l[i]` with negative-index wraparound;
`none` models a raised `IndexError`. -/
def pyIndex (l : List α) (i : Int) : Option α :=
  let j := if i < 0 then (l.length : Int) + i else i
  if 0 ≤ j then l.get? j.toNat else none

/-- Weekday name table of `format_schedule`. -/
def days : List String :=
  ["Sun", "Mon", "Tue", "Wed", "Thu", "Fri", "Sat"]

/-- `format_schedule(parsed)` from the source. `none` models the
`IndexError` points (`entries[0]` of an empty list, `days[w]` outside
`-7 ≤ w ≤ 6`), which are unreachable from `parse_cron` output. -/
def format_schedule (parsed : ParsedCron) : Option String :=
  match parsed with
  | ParsedCron.StartInterval seconds =>
    let mins := seconds / 60
    some (if mins = 1 then "Every minute" else "Every " ++ toString mins ++ " minutes")
  | ParsedCron.StartCalendarInterval entries =>
    if entries.length = 1 then
      match pyIndex entries 0 with
      | none => none
      | some e =>
        let time := py02d e.hour ++ ":" ++ py02d e.minute
        match e.weekday with
        | none => some ("Daily at " ++ time)
        | some w =>
          match pyIndex days w with
          | none => none
          | some name => some (name ++ " at " ++ time)
    else
      let hours := sortedDedup (entries.map (fun e => e.hour))
      match pyIndex entries 0 with
      | none => none
      | some e0 =>
        let minute := e0.minute
        let times := String.intercalate ", "
          (hours.map (fun h => py02d h ++ ":" ++ py02d minute))
        let weekdays := entries.map (fun e => e.weekday)
        if (none : Option Int) ∈ weekdays then
          some ("Daily at " ++ times)
        else
          let ws := sortedDedup (weekdays.filterMap id)
          match ws.mapM (pyIndex days) with
          | none => none
          | some names =>
            some ("At " ++ times ++ " on " ++ String.intercalate ", " names)

/-! ### Formatter: spec-side renderings (§4.3 of the spec) -/

/-- The spec's "collect the distinct values, sorted ascending":
deduplicate, then sort (note the implementation sorts first and then
deduplicates; the two agree, see `sortedDedup_eq_distinctSorted`). -/
def distinctSorted (l : List Int) : List Int :=
  List.insertionSort (· ≤ ·) l.dedup

/-- The spec's weekday-name table: index 0–6 → Sun..Sat. -/
def specDayName (w : Int) : String :=
  if w = 0 then "Sun" else if w = 1 then "Mon" else if w = 2 then "Tue"
  else if w = 3 then "Wed" else if w = 4 then "Thu" else if w = 5 then "Fri"
  else if w = 6 then "Sat" else ""

/-- The spec's multi-entry time list: distinct hours ascending, each
rendered `HH:MM` with the shared minute, joined by `", "`. -/
def specTimes (entries : List CalendarEntry) (m : Int) : String :=
  String.intercalate ", "
    ((distinctSorted (entries.map (fun e => e.hour))).map (fun h => py02d h ++ ":" ++ py02d m))

/-- The spec's day list: distinct weekday names sorted by weekday
number, joined by `", "`. -/
def specDayNames (ws : List Int) : String :=
  String.intercalate ", " ((distinctSorted ws).map specDayName)

/-! ### Properties of `pyRange` and `sortedDedup` -/

theorem mem_pyRangeAux {x a s : Int} : ∀ {n : Nat}, x ∈ pyRangeAux a s n →
    ∃ k : Nat, k < n ∧ x = a + k * s := by
  intro n
  induction n generalizing a with
  | zero => intro hx; simp [pyRangeAux] at hx
  | succ n ih =>
    intro hx
    simp only [pyRangeAux, List.mem_cons] at hx
    rcases hx with rfl | hx
    · exact ⟨0, Nat.succ_pos n, by ring⟩
    · obtain ⟨k, hk, hxk⟩ := ih hx
      exact ⟨k + 1, Nat.succ_lt_succ hk, by push_cast [hxk]; ring⟩

theorem pyRangeAux_pairwise {s : Int} (hs : 0 < s) (a : Int) :
    ∀ n : Nat, List.Pairwise (· < ·) (pyRangeAux a s n) := by
  intro n
  induction n generalizing a with
  | zero => simp [pyRangeAux]
  | succ n ih =>
    simp only [pyRangeAux, List.pairwise_cons]
    refine ⟨fun y hy => ?_, ih (a + s)⟩
    obtain ⟨k, _, rfl⟩ := mem_pyRangeAux hy
    have : (0 : Int) ≤ k * s := mul_nonneg (Int.natCast_nonneg k) hs.le
    linarith

theorem pyRange_pairwise (a b s : Int) : List.Pairwise (· < ·) (pyRange a b s) := by
  unfold pyRange
  split
  · exact pyRangeAux_pairwise ‹0 < s› a _
  · simp

theorem mem_pyRange {x a b s : Int} (hs : 0 < s) (hx : x ∈ pyRange a b s) :
    a ≤ x ∧ x ≤ b - 1 := by
  unfold pyRange at hx
  rw [if_pos hs] at hx
  obtain ⟨k, hk, rfl⟩ := mem_pyRangeAux hx
  have hk0 : (0 : Int) ≤ k * s := mul_nonneg (Int.natCast_nonneg k) hs.le
  have hkd : ((k : Int) + 1) ≤ (b - a + s - 1) / s := by omega
  have hmul : ((k : Int) + 1) * s ≤ b - a + s - 1 := (Int.le_ediv_iff_mul_le hs).mp hkd
  constructor
  · linarith
  · nlinarith

theorem pyRange_ne_nil {a b s : Int} (hs : 0 < s) (hab : a < b) : pyRange a b s ≠ [] := by
  unfold pyRange
  rw [if_pos hs]
  have h1 : (1 : Int) ≤ (b - a + s - 1) / s := by
    rw [Int.le_ediv_iff_mul_le hs]
    omega
  cases hn : ((b - a + s - 1) / s).toNat with
  | zero => omega
  | succ m => simp [pyRangeAux]

theorem sortedDedup_pairwise (l : List Int) : List.Pairwise (· < ·) (sortedDedup l) := by
  have hle : List.Pairwise (· ≤ ·) (sortedDedup l) :=
    List.Pairwise.sublist (List.dedup_sublist _) (List.sorted_insertionSort (· ≤ ·) l)
  have hne : List.Pairwise (· ≠ ·) (sortedDedup l) := List.nodup_dedup _
  exact (hle.and hne).imp fun h => lt_of_le_of_ne h.1 h.2

theorem mem_sortedDedup {x : Int} {l : List Int} : x ∈ sortedDedup l ↔ x ∈ l :=
  List.mem_dedup.trans (List.perm_insertionSort (· ≤ ·) l).mem_iff

theorem sortedDedup_ne_nil {l : List Int} (h : l ≠ []) : sortedDedup l ≠ [] := by
  obtain ⟨x, hx⟩ := List.exists_mem_of_ne_nil l h
  exact List.ne_nil_of_mem (mem_sortedDedup.mpr hx)

theorem splitWhen_ne_nil (p : Char → Bool) (l : List Char) : splitWhen p l ≠ [] := by
  cases l with
  | nil => simp [splitWhen]
  | cons c cs =>
    unfold splitWhen
    split
    · simp
    · split <;> simp

/-! ### Soundness of the field parser -/

theorem parseListParts_sound {mn mx : Int} :
    ∀ (parts : List (List Char)) (acc out : List Int),
      parseListParts mn mx parts acc = Except.ok out →
      (∀ x ∈ acc, mn ≤ x ∧ x ≤ mx) → ∀ x ∈ out, mn ≤ x ∧ x ≤ mx := by
  intro parts
  induction parts with
  | nil =>
    intro acc out h hacc
    simp only [parseListParts] at h
    injection h with h
    subst h
    exact hacc
  | cons part rest ih =>
    intro acc out h hacc
    simp only [parseListParts] at h
    split at h
    · -- range element "A-B"
      split at h
      · simp at h
      · rename_i start heqs
        split at h
        · simp at h
        · rename_i stop heqe
          split at h
          · simp at h
          · rename_i hok
            push_neg at hok
            refine ih _ out h fun x hx => ?_
            rcases List.mem_append.mp hx with hx | hx
            · exact hacc x hx
            · have hb := mem_pyRange Int.one_pos hx
              constructor <;> omega
    · -- single integer element
      split at h
      · simp at h
      · split at h
        · simp at h
        · rename_i hok
          push_neg at hok
          refine ih _ out h fun x hx => ?_
          rcases List.mem_append.mp hx with hx | hx
          · exact hacc x hx
          · simp at hx
            subst hx
            constructor <;> omega

theorem parseListParts_length {mn mx : Int} :
    ∀ (parts : List (List Char)) (acc out : List Int),
      parseListParts mn mx parts acc = Except.ok out →
      acc.length + parts.length ≤ out.length := by
  intro parts
  induction parts with
  | nil =>
    intro acc out h
    simp only [parseListParts] at h
    injection h with h
    subst h
    simp
  | cons part rest ih =>
    intro acc out h
    simp only [parseListParts] at h
    split at h
    · split at h
      · simp at h
      · rename_i start heqs
        split at h
        · simp at h
        · rename_i stop heqe
          split at h
          · simp at h
          · rename_i hok
            push_neg at hok
            have hr : 1 ≤ (pyRange start (stop + 1) 1).length :=
              List.length_pos.mpr (pyRange_ne_nil Int.one_pos (by omega))
            have := ih _ out h
            simp only [List.length_append] at this
            simp only [List.length_cons]
            omega
    · split at h
      · simp at h
      · split at h
        · simp at h
        · have := ih _ out h
          simp only [List.length_append, List.length_cons] at this ⊢
          omega

theorem parseField_sound {field : List Char} {mn mx : Int} {name : String} {l : List Int}
    (h : parseField field mn mx name = Except.ok l) :
    List.Pairwise (· < ·) l ∧ ∀ x ∈ l, mn ≤ x ∧ x ≤ mx := by
  unfold parseField at h
  split at h
  · -- "*"
    injection h with h
    subst h
    refine ⟨pyRange_pairwise _ _ _, fun x hx => ?_⟩
    have hb := mem_pyRange Int.one_pos hx
    omega
  split at h
  · -- "*/N"
    split at h
    · simp at h
    · rename_i step heq
      split at h
      · simp at h
      · rename_i hstep
        injection h with h
        subst h
        refine ⟨pyRange_pairwise _ _ _, fun x hx => ?_⟩
        have hb := mem_pyRange (by omega) hx
        omega
  split at h
  · -- "A-B/N"
    split at h
    rename_i range_part step_str hpair
    split at h
    · simp at h
    · rename_i step heq
      split at h
      · simp at h
      · split at h
        · simp at h
        · rename_i hstep hdash
          split at h
          rename_i s1 s2 hpair2
          split at h
          · simp at h
          · rename_i start heq1
            split at h
            · simp at h
            · rename_i stop heq2
              split at h
              · simp at h
              · rename_i hok
                push_neg at hok
                injection h with h
                subst h
                refine ⟨pyRange_pairwise _ _ _, fun x hx => ?_⟩
                have hb := mem_pyRange (by omega) hx
                omega
  split at h
  · -- comma list
    split at h
    · simp at h
    · rename_i values heq
      injection h with h
      subst h
      refine ⟨sortedDedup_pairwise _, fun x hx => ?_⟩
      exact parseListParts_sound _ [] values heq (by simp) x (mem_sortedDedup.mp hx)
  split at h
  · -- plain "A-B"
    split at h
    rename_i s1 s2 hpair
    split at h
    · simp at h
    · rename_i start heq1
      split at h
      · simp at h
      · rename_i stop heq2
        split at h
        · simp at h
        · rename_i hok
          push_neg at hok
          injection h with h
          subst h
          refine ⟨pyRange_pairwise _ _ _, fun x hx => ?_⟩
          have hb := mem_pyRange Int.one_pos hx
          omega
  · -- single integer
    split at h
    · simp at h
    · rename_i val heq
      split at h
      · simp at h
      · rename_i hok
        push_neg at hok
        injection h with h
        subst h
        refine ⟨by simp, fun x hx => ?_⟩
        simp at hx
        subst hx
        omega

theorem parseField_ok_ne_nil {field : List Char} {mn mx : Int} {name : String} {l : List Int}
    (hmn : mn ≤ mx) (h : parseField field mn mx name = Except.ok l) : l ≠ [] := by
  unfold parseField at h
  split at h
  · injection h with h
    subst h
    exact pyRange_ne_nil Int.one_pos (by omega)
  split at h
  · split at h
    · simp at h
    · rename_i step heq
      split at h
      · simp at h
      · rename_i hstep
        injection h with h
        subst h
        exact pyRange_ne_nil (by omega) (by omega)
  split at h
  · split at h
    rename_i range_part step_str hpair
    split at h
    · simp at h
    · rename_i step heq
      split at h
      · simp at h
      · split at h
        · simp at h
        · rename_i hstep hdash
          split at h
          rename_i s1 s2 hpair2
          split at h
          · simp at h
          · rename_i start heq1
            split at h
            · simp at h
            · rename_i stop heq2
              split at h
              · simp at h
              · rename_i hok
                push_neg at hok
                injection h with h
                subst h
                exact pyRange_ne_nil (by omega) (by omega)
  split at h
  · split at h
    · simp at h
    · rename_i values heq
      injection h with h
      subst h
      have hparts : 1 ≤ (splitWhen (· == ',') field).length :=
        List.length_pos.mpr (splitWhen_ne_nil _ _)
      have hlen := parseListParts_length _ [] values heq
      simp only [List.length_nil] at hlen
      exact sortedDedup_ne_nil (by rw [← List.length_pos]; omega)
  split at h
  · split at h
    rename_i s1 s2 hpair
    split at h
    · simp at h
    · rename_i start heq1
      split at h
      · simp at h
      · rename_i stop heq2
        split at h
        · simp at h
        · rename_i hok
          push_neg at hok
          injection h with h
          subst h
          exact pyRange_ne_nil Int.one_pos (by omega)
  · split at h
    · simp at h
    · rename_i val heq
      split at h
      · simp at h
      · injection h with h
        subst h
        simp

/-! ### Characterisations of `parse_cron` -/

theorem length_cross {α β γ : Type} (H : List α) (W : List β) (f : α → β → γ) :
    (H.flatMap (fun h => W.map (f h))).length = H.length * W.length := by
  induction H with
  | nil => simp
  | cons h t ih =>
    simp only [List.flatMap_cons, List.length_append, List.length_map, ih, List.length_cons]
    ring

theorem parse_cron_interval_ok {e mf : List Char} {N : Int}
    (hsplit : pySplitWS e = [mf, ['*'], ['*'], ['*'], ['*']])
    (hpre : ['*', '/'].isPrefixOf mf)
    (hN : pyInt? (mf.drop 2) = some N) (hpos : 0 < N) :
    parse_cron e = Except.ok (ParsedCron.StartInterval (N * 60)) := by
  unfold parse_cron
  rw [hsplit]
  simp [pyIntE, hN, hpre, show ¬N ≤ 0 by omega]

theorem parse_cron_interval_err {e mf : List Char} {N : Int}
    (hsplit : pySplitWS e = [mf, ['*'], ['*'], ['*'], ['*']])
    (hpre : ['*', '/'].isPrefixOf mf)
    (hN : pyInt? (mf.drop 2) = some N) (hneg : N ≤ 0) :
    parse_cron e = Except.error (PyErr.cron "Interval must be positive") := by
  unfold parse_cron
  rw [hsplit]
  simp [pyIntE, hN, hpre, hneg]

theorem parse_cron_calendar_inv {e : List Char} {es : List CalendarEntry}
    (h : parse_cron e = Except.ok (ParsedCron.StartCalendarInterval es)) :
    ∃ (mf hf dowf : List Char) (m : Int) (H : List Int) (W : List (Option Int)),
      pySplitWS e = [mf, hf, ['*'], ['*'], dowf] ∧
      pyInt? mf = some m ∧ 0 ≤ m ∧ m ≤ 59 ∧
      parseField hf 0 23 "hour" = Except.ok H ∧
      ((dowf = ['*'] ∧ W = [none]) ∨
        (dowf ≠ ['*'] ∧ ∃ W0, parseField dowf 0 6 "dow" = Except.ok W0 ∧ W = W0.map some)) ∧
      es = H.flatMap (fun hr => W.map (fun w => ⟨m, hr, w⟩)) := by
  unfold parse_cron at h
  split at h
  case h_2 => simp at h
  case h_1 mf hf domf monf dowf heqsplit =>
  split at h
  · simp at h
  rename_i hdom
  split at h
  · simp at h
  rename_i hmon
  push_neg at hdom hmon
  subst hdom hmon
  split at h
  · -- interval branch cannot return a calendar schedule
    split at h
    · simp at h
    · split at h <;> simp at h
  rename_i hnotint
  split at h
  · simp at h
  rename_i hmsyn
  split at h
  · simp at h
  rename_i m heqm
  split at h
  · simp at h
  rename_i hmb
  push_neg at hmb
  split at h
  · simp at h
  rename_i H heqH
  split at h
  · simp at h
  rename_i W heqW
  have hm : pyInt? mf = some m := by
    unfold pyIntE at heqm
    split at heqm
    · rename_i n hsome
      injection heqm with heqm
      subst heqm
      exact hsome
    · simp at heqm
  injection h with h
  injection h with h
  refine ⟨mf, hf, dowf, m, H, W, heqsplit, hm, hmb.1, hmb.2, heqH, ?_, h.symm⟩
  split at heqW
  · rename_i hdow
    injection heqW with heqW
    exact Or.inl ⟨hdow, heqW.symm⟩
  · rename_i hdow
    split at heqW
    · simp at heqW
    · rename_i W0 heqW0
      injection heqW with heqW
      exact Or.inr ⟨hdow, W0, heqW0, heqW.symm⟩

/-! ### Claim theorems -/

/-- C1: refuted (code bug). The spec promises a single error kind
(`CronParseError`), but the source's bare `int()` calls raise
`ValueError` on non-numeric text: a minute field `abc`, an interval
step `*/x` and a list element `1,a` all surface as `ValueError`, not as
`CronParseError`. -/
theorem c1_nonnumeric_fields_raise_valueerror :
    parse_cron ("abc 9 * * *".toList) =
      Except.error (PyErr.value "invalid literal for int() with base 10: abc") ∧
    parse_cron ("*/x * * * *".toList) =
      Except.error (PyErr.value "invalid literal for int() with base 10: x") ∧
    parse_cron ("0 1,a * * *".toList) =
      Except.error (PyErr.value "invalid literal for int() with base 10: a") := by
  refine ⟨by decide, by decide, by decide⟩

/-- C2: every calendar schedule returned by `parse_cron` is the full
cross product of the parsed hour set `H` and weekday set `W` (the
singleton `[none]` when the weekday field is `*`), with `|H| × |W|`
entries each carrying the single parsed minute; and
`parse_cron "0 9 * * 1-5"` yields exactly the 5 entries
minute 0, hour 9, weekdays 1..5. -/
theorem c2_calendar_cross_product :
    (∀ (e : List Char) (es : List CalendarEntry),
      parse_cron e = Except.ok (ParsedCron.StartCalendarInterval es) →
      ∃ (mf hf dowf : List Char) (m : Int) (H : List Int) (W : List (Option Int)),
        pySplitWS e = [mf, hf, ['*'], ['*'], dowf] ∧
        pyInt? mf = some m ∧
        parseField hf 0 23 "hour" = Except.ok H ∧
        ((dowf = ['*'] ∧ W = [none]) ∨
          (dowf ≠ ['*'] ∧ ∃ W0, parseField dowf 0 6 "dow" = Except.ok W0 ∧ W = W0.map some)) ∧
        es = H.flatMap (fun hr => W.map (fun w => ⟨m, hr, w⟩)) ∧
        es.length = H.length * W.length ∧
        (∀ en ∈ es, en.minute = m)) ∧
    parse_cron ("0 9 * * 1-5".toList) =
      Except.ok (ParsedCron.StartCalendarInterval
        [⟨0, 9, some 1⟩, ⟨0, 9, some 2⟩, ⟨0, 9, some 3⟩, ⟨0, 9, some 4⟩, ⟨0, 9, some 5⟩]) := by
  constructor
  · intro e es h
    obtain ⟨mf, hf, dowf, m, H, W, hsplit, hm, _, _, hH, hW, hes⟩ := parse_cron_calendar_inv h
    refine ⟨mf, hf, dowf, m, H, W, hsplit, hm, hH, hW, hes, ?_, ?_⟩
    · rw [hes]
      exact length_cross H W _
    · intro en hen
      rw [hes] at hen
      simp only [List.mem_flatMap, List.mem_map] at hen
      obtain ⟨hr, _, w, _, rfl⟩ := hen
      rfl
  · decide

/-- C2 witness: the universal part applied to the concrete accepted
expression `30 8,18 * * *`. -/
theorem c2_witness :
    ∃ (mf hf dowf : List Char) (m : Int) (H : List Int) (W : List (Option Int)),
      pySplitWS ("30 8,18 * * *".toList) = [mf, hf, ['*'], ['*'], dowf] ∧
      pyInt? mf = some m ∧
      parseField hf 0 23 "hour" = Except.ok H ∧
      ((dowf = ['*'] ∧ W = [none]) ∨
        (dowf ≠ ['*'] ∧ ∃ W0, parseField dowf 0 6 "dow" = Except.ok W0 ∧ W = W0.map some)) ∧
      [CalendarEntry.mk 30 8 none, CalendarEntry.mk 30 18 none] =
        H.flatMap (fun hr => W.map (fun w => ⟨m, hr, w⟩)) ∧
      ([CalendarEntry.mk 30 8 none, CalendarEntry.mk 30 18 none] : List CalendarEntry).length =
        H.length * W.length ∧
      (∀ en ∈ [CalendarEntry.mk 30 8 none, CalendarEntry.mk 30 18 none], en.minute = m) :=
  c2_calendar_cross_product.1 ("30 8,18 * * *".toList)
    [CalendarEntry.mk 30 8 none, CalendarEntry.mk 30 18 none] (by decide)

/-- C3: whenever the field parser succeeds with bounds `[mn, mx]`,
`mn ≤ mx`, the returned sequence is strictly ascending, duplicate-free,
and all its elements lie in `[mn, mx]`. -/
theorem c3_parseField_sorted_bounded :
    ∀ (field : List Char) (mn mx : Int) (name : String) (l : List Int),
      mn ≤ mx → parseField field mn mx name = Except.ok l →
      List.Pairwise (· < ·) l ∧ l.Nodup ∧ ∀ x ∈ l, mn ≤ x ∧ x ≤ mx := by
  intro field mn mx name l _ h
  obtain ⟨hp, hb⟩ := parseField_sound h
  exact ⟨hp, hp.imp ne_of_lt, hb⟩

/-- C3 witness: the field `1-3,5` with bounds `[0, 10]` parses to
`[1, 2, 3, 5]`, which satisfies all three conclusions. -/
theorem c3_witness :
    List.Pairwise (· < ·) ([1, 2, 3, 5] : List Int) ∧ ([1, 2, 3, 5] : List Int).Nodup ∧
      ∀ x ∈ ([1, 2, 3, 5] : List Int), 0 ≤ x ∧ x ≤ 10 :=
  c3_parseField_sorted_bounded ("1-3,5".toList) 0 10 "hour" [1, 2, 3, 5]
    (by norm_num) (by decide)

/-- C4: an expression splitting into `*/N * * * *` (with `N` an integer
literal) takes the interval branch: for `0 < N` it returns
`StartInterval (N * 60)` (a positive multiple of 60), for `N ≤ 0` it
fails with a `CronParseError`; and `parse_cron "*/10 * * * *"` is
`StartInterval 600`. -/
theorem c4_interval_branch :
    (∀ (e mf : List Char) (N : Int),
      pySplitWS e = [mf, ['*'], ['*'], ['*'], ['*']] →
      ['*', '/'].isPrefixOf mf →
      pyInt? (mf.drop 2) = some N →
      (0 < N → parse_cron e = Except.ok (ParsedCron.StartInterval (N * 60))) ∧
      (N ≤ 0 → parse_cron e = Except.error (PyErr.cron "Interval must be positive"))) ∧
    parse_cron ("*/10 * * * *".toList) = Except.ok (ParsedCron.StartInterval 600) := by
  constructor
  · intro e mf N hsplit hpre hN
    exact ⟨fun hpos => parse_cron_interval_ok hsplit hpre hN hpos,
      fun hneg => parse_cron_interval_err hsplit hpre hN hneg⟩
  · decide

/-- C4 witness: the universal part applied to `*/10 * * * *`. -/
theorem c4_witness :
    parse_cron ("*/10 * * * *".toList) = Except.ok (ParsedCron.StartInterval (10 * 60)) :=
  ((c4_interval_branch.1 ("*/10 * * * *".toList) ("*/10".toList) 10
    (by decide) (by decide) (by decide)).1 (by norm_num))

/-- C5: on the calendar branch (the expression is not of interval form)
the minute field must be a single literal integer in `[0, 59]`: a `*`
minute, or one containing `,`, `-` or `/`, is rejected, and so is a
literal minute out of `[0, 59]`; in particular `parse_cron "* 9 * * *"`
fails. -/
theorem c5_calendar_minute_single_literal :
    (∀ (e mf hf dowf : List Char),
      pySplitWS e = [mf, hf, ['*'], ['*'], dowf] →
      ¬(['*', '/'].isPrefixOf mf ∧ hf = ['*'] ∧ dowf = ['*']) →
      ((mf = ['*'] ∨ ',' ∈ mf ∨ '-' ∈ mf ∨ '/' ∈ mf →
        parse_cron e =
          Except.error (PyErr.cron "Minute must be a single value (0-59) for calendar schedules")) ∧
      (∀ m : Int, ¬(mf = ['*'] ∨ ',' ∈ mf ∨ '-' ∈ mf ∨ '/' ∈ mf) →
        pyInt? mf = some m → m < 0 ∨ m > 59 →
        parse_cron e = Except.error (PyErr.cron ("Minute must be 0-59, got " ++ toString m))))) ∧
    parse_cron ("* 9 * * *".toList) =
      Except.error (PyErr.cron "Minute must be a single value (0-59) for calendar schedules") := by
  constructor
  · intro e mf hf dowf hsplit hnotint
    rw [List.isPrefixOf_iff_prefix] at hnotint
    constructor
    · intro hsyn
      unfold parse_cron
      rw [hsplit]
      simp [hsyn]
      intro hpre hhf hdow
      exact absurd ⟨hpre, hhf, hdow⟩ hnotint
    · intro m hnosyn hm hbad
      unfold parse_cron
      rw [hsplit]
      simp [pyIntE, hnosyn, hm, hbad]
      intro hpre hhf hdow
      exact absurd ⟨hpre, hhf, hdow⟩ hnotint
  · decide

/-- C5 witness: the universal part applied to `* 9 * * *` (wildcard
minute with a non-interval expression). -/
theorem c5_witness :
    parse_cron ("* 9 * * *".toList) =
      Except.error (PyErr.cron "Minute must be a single value (0-59) for calendar schedules") :=
  (c5_calendar_minute_single_literal.1 ("* 9 * * *".toList)
    ("*".toList) ("9".toList) ("*".toList) (by decide) (by decide)).1 (by decide)

/-- C9: the interval branch applies no upper bound to `N`: any literal
`N > 59` is accepted and yields `StartInterval (N * 60)`; in particular
`parse_cron "*/90 * * * *"` is `StartInterval 5400`. -/
theorem c9_interval_no_upper_bound :
    (∀ (e mf : List Char) (N : Int),
      pySplitWS e = [mf, ['*'], ['*'], ['*'], ['*']] →
      ['*', '/'].isPrefixOf mf →
      pyInt? (mf.drop 2) = some N → 59 < N →
      parse_cron e = Except.ok (ParsedCron.StartInterval (N * 60))) ∧
    parse_cron ("*/90 * * * *".toList) = Except.ok (ParsedCron.StartInterval 5400) := by
  constructor
  · intro e mf N hsplit hpre hN hbig
    exact parse_cron_interval_ok hsplit hpre hN (by omega)
  · decide

/-- C9 witness: the universal part applied to `*/90 * * * *`. -/
theorem c9_witness :
    parse_cron ("*/90 * * * *".toList) = Except.ok (ParsedCron.StartInterval (90 * 60)) :=
  c9_interval_no_upper_bound.1 ("*/90 * * * *".toList) ("*/90".toList) 90
    (by decide) (by decide) (by decide) (by norm_num)

/-- C8: every `StartCalendarInterval` returned by `parse_cron` has at
least one entry; correspondingly, a successful `_parse_field` with
`mn ≤ mx` never returns an empty list. -/
theorem c8_schedule_nonempty :
    (∀ (field : List Char) (mn mx : Int) (name : String) (l : List Int),
      mn ≤ mx → parseField field mn mx name = Except.ok l → l ≠ []) ∧
    (∀ (e : List Char) (es : List CalendarEntry),
      parse_cron e = Except.ok (ParsedCron.StartCalendarInterval es) → es ≠ []) := by
  constructor
  · intro field mn mx name l hmn h
    exact parseField_ok_ne_nil hmn h
  · intro e es h
    obtain ⟨mf, hf, dowf, m, H, W, _, _, _, _, hH, hW, hes⟩ := parse_cron_calendar_inv h
    have hHne : H ≠ [] := parseField_ok_ne_nil (by norm_num) hH
    have hWne : W ≠ [] := by
      rcases hW with ⟨_, rfl⟩ | ⟨_, W0, hW0, rfl⟩
      · simp
      · simpa using parseField_ok_ne_nil (by norm_num) hW0
    rw [hes, ← List.length_pos, length_cross]
    exact Nat.mul_pos (List.length_pos.mpr hHne) (List.length_pos.mpr hWne)

/-- C8 witness: the invariant applied to the parse of `0 0 * * *`. -/
theorem c8_witness : ([CalendarEntry.mk 0 0 none] : List CalendarEntry) ≠ [] :=
  c8_schedule_nonempty.2 ("0 0 * * *".toList) [CalendarEntry.mk 0 0 none] (by decide)

theorem sortedDedup_sorted_le (l : List Int) : List.Sorted (· ≤ ·) (sortedDedup l) :=
  List.Pairwise.sublist (List.dedup_sublist _) (List.sorted_insertionSort (· ≤ ·) l)

theorem sortedDedup_nodup (l : List Int) : (sortedDedup l).Nodup :=
  List.nodup_dedup _

theorem sortedDedup_eq_distinctSorted (l : List Int) : sortedDedup l = distinctSorted l := by
  unfold distinctSorted
  refine List.eq_of_perm_of_sorted ?_ (sortedDedup_sorted_le l)
    (List.sorted_insertionSort (· ≤ ·) l.dedup)
  rw [List.perm_ext_iff_of_nodup (sortedDedup_nodup l)
    ((List.perm_insertionSort (· ≤ ·) l.dedup).nodup_iff.mpr (List.nodup_dedup l))]
  intro a
  rw [mem_sortedDedup, (List.perm_insertionSort (· ≤ ·) l.dedup).mem_iff, List.mem_dedup]

theorem pyIndex_cons_zero {α : Type} (a : α) (l : List α) : pyIndex (a :: l) 0 = some a := rfl

theorem pyIndex_days {w : Int} (h0 : 0 ≤ w) (h6 : w ≤ 6) :
    pyIndex days w = some (specDayName w) := by
  interval_cases w <;> rfl

theorem mapM_pyIndex_days {ws : List Int} (h : ∀ w ∈ ws, 0 ≤ w ∧ w ≤ 6) :
    ws.mapM (pyIndex days) = some (ws.map specDayName) := by
  induction ws with
  | nil => rfl
  | cons w t ih =>
    have hw := h w (List.mem_cons_self w t)
    rw [List.mapM_cons, pyIndex_days hw.1 hw.2, ih (fun x hx => h x (List.mem_cons_of_mem w hx))]
    rfl

/-- C7: a single-entry calendar schedule formats as
`"{weekday-name} at HH:MM"` when the weekday is set (names Sun..Sat for
0–6) and `"Daily at HH:MM"` when unset, zero-padded; in particular
`{minute=0, hour=9, weekday=1}` gives `"Mon at 09:00"` and with the
weekday unset `"Daily at 09:00"`. -/
theorem c7_format_single :
    (∀ e : CalendarEntry,
      (∀ w, e.weekday = some w → 0 ≤ w → w ≤ 6 →
        format_schedule (ParsedCron.StartCalendarInterval [e]) =
          some (specDayName w ++ " at " ++ (py02d e.hour ++ ":" ++ py02d e.minute))) ∧
      (e.weekday = none →
        format_schedule (ParsedCron.StartCalendarInterval [e]) =
          some ("Daily at " ++ (py02d e.hour ++ ":" ++ py02d e.minute)))) ∧
    format_schedule (ParsedCron.StartCalendarInterval [⟨0, 9, some 1⟩]) =
      some "Mon at 09:00" ∧
    format_schedule (ParsedCron.StartCalendarInterval [⟨0, 9, none⟩]) =
      some "Daily at 09:00" := by
  refine ⟨fun e => ⟨?_, ?_⟩, by decide, by decide⟩
  · intro w hw h0 h6
    simp [format_schedule, pyIndex_cons_zero, hw, pyIndex_days h0 h6]
  · intro hw
    simp [format_schedule, pyIndex_cons_zero, hw]

/-- C7 witness: the universal part applied to the entry
`{minute=0, hour=9, weekday=1}`. -/
theorem c7_witness :
    format_schedule (ParsedCron.StartCalendarInterval [⟨0, 9, some 1⟩]) =
      some (specDayName 1 ++ " at " ++ (py02d 9 ++ ":" ++ py02d 0)) :=
  (c7_format_single.1 ⟨0, 9, some 1⟩).1 1 rfl (by norm_num) (by norm_num)

/-- C10: with two or more entries, the minute printed in every `HH:MM`
comes exclusively from `entries[0].minute` — replacing every entry's
minute by the first entry's minute leaves the output unchanged — and
concretely a second entry's differing minute (30) is silently ignored. -/
theorem c10_multi_minute_from_first :
    (∀ (e0 : CalendarEntry) (rest : List CalendarEntry), rest ≠ [] →
      format_schedule (ParsedCron.StartCalendarInterval (e0 :: rest)) =
        format_schedule (ParsedCron.StartCalendarInterval
          ((e0 :: rest).map (fun e => ⟨e0.minute, e.hour, e.weekday⟩)))) ∧
    format_schedule (ParsedCron.StartCalendarInterval
      [⟨0, 9, none⟩, ⟨30, 10, none⟩]) = some "Daily at 09:00, 10:00" := by
  constructor
  · intro e0 rest hne
    obtain ⟨r1, rs, rfl⟩ := List.exists_cons_of_ne_nil hne
    simp [format_schedule, pyIndex_cons_zero, List.map_map, Function.comp_def]
  · decide

/-- C10 witness: the universal part applied to two concrete entries. -/
theorem c10_witness :
    format_schedule (ParsedCron.StartCalendarInterval
        [⟨0, 9, none⟩, ⟨30, 10, none⟩]) =
      format_schedule (ParsedCron.StartCalendarInterval
        (([⟨0, 9, none⟩, ⟨30, 10, none⟩] : List CalendarEntry).map
          (fun e => ⟨(0 : Int), e.hour, e.weekday⟩))) :=
  c10_multi_minute_from_first.1 ⟨0, 9, none⟩ [⟨30, 10, none⟩] (by decide)

/-- C6: a multi-entry calendar schedule whose entries share one minute
renders the distinct hours ascending as zero-padded `HH:MM` times
joined by `", "`; if `unset` (None) occurs among the weekdays the
result is `"Daily at {times}"` (coexisting concrete weekdays are
ignored), otherwise `"At {times} on {days}"` with distinct weekday
names sorted by weekday number. -/
theorem c6_format_multi :
    ∀ (entries : List CalendarEntry) (m : Int),
      2 ≤ entries.length →
      (∀ e ∈ entries, e.minute = m) →
      (((none : Option Int) ∈ entries.map (fun e => e.weekday) →
        format_schedule (ParsedCron.StartCalendarInterval entries) =
          some ("Daily at " ++ specTimes entries m)) ∧
      ((none : Option Int) ∉ entries.map (fun e => e.weekday) →
        (∀ e ∈ entries, ∀ w, e.weekday = some w → 0 ≤ w ∧ w ≤ 6) →
        format_schedule (ParsedCron.StartCalendarInterval entries) =
          some ("At " ++ specTimes entries m ++ " on " ++
            specDayNames (entries.filterMap (fun e => e.weekday))))) := by
  intro entries m hlen hmin
  obtain ⟨e0, rest, rfl⟩ : ∃ e0 rest, entries = e0 :: rest := by
    cases entries with
    | nil => simp at hlen
    | cons a t => exact ⟨a, t, rfl⟩
  have hm0 : e0.minute = m := hmin e0 (List.mem_cons_self e0 rest)
  have hlen1 : ¬((e0 :: rest).length = 1) := by
    simp only [List.length_cons] at hlen ⊢
    omega
  constructor
  · intro hnone
    simp only [format_schedule, if_neg hlen1, pyIndex_cons_zero]
    rw [if_pos hnone]
    simp [specTimes, sortedDedup_eq_distinctSorted, hm0]
  · intro hnone hwf
    simp only [format_schedule, if_neg hlen1, pyIndex_cons_zero]
    rw [if_neg hnone]
    have hws : ∀ w ∈ sortedDedup (((e0 :: rest).map (fun e => e.weekday)).filterMap id),
        0 ≤ w ∧ w ≤ 6 := by
      intro w hw
      rw [mem_sortedDedup, List.filterMap_map] at hw
      simp only [List.mem_filterMap, Function.id_comp] at hw
      obtain ⟨e, he, hew⟩ := hw
      exact hwf e he w hew
    rw [mapM_pyIndex_days hws, List.filterMap_map]
    simp [specTimes, specDayNames, sortedDedup_eq_distinctSorted, hm0, Function.id_comp]

/-- C6 witness: two concrete entries with weekdays Mon and Fri. -/
theorem c6_witness :
    format_schedule (ParsedCron.StartCalendarInterval
        [⟨0, 9, some 1⟩, ⟨0, 10, some 5⟩]) =
      some ("At " ++ specTimes [⟨0, 9, some 1⟩, ⟨0, 10, some 5⟩] 0 ++ " on " ++
        specDayNames (([⟨0, 9, some 1⟩, ⟨0, 10, some 5⟩] :
          List CalendarEntry).filterMap (fun e => e.weekday))) :=
  (c6_format_multi [⟨0, 9, some 1⟩, ⟨0, 10, some 5⟩] 0 (by norm_num)
    (by decide)).2 (by decide) (by decide)
